import Mathlib

/-!
# Verification of the roaming-usage ingestion pipeline (`src/app.py`)

This file gives a shallow embedding of the core logic of `app.py`:
column normalization (`standardize_columns`), workbook parsing
(`parse_workbook`), the country-resolution chain (`infer_chain` with its
helper functions), and the mapping-table merge functions
(`save_new_mappings_to_csv`, `save_partner_mappings`), together with
theorems about the claims of the specification.

Modelling conventions:
* Python strings are Lean `String`s; Python's `str.strip()`, `str.lower()`,
  `str.upper()` and regex character classes are modelled on ASCII
  (`[ \t\n\r\x0b\x0c]` for `\s`, `[A-Za-z]` for the `re` classes used),
  which is the alphabet all headers, identifiers and table keys of the
  program use.
* A pandas cell is a `Cell`: a numeric value (`num`), a non-numeric text
  (`text`, on which `pd.to_numeric(errors="coerce")` yields `NaN`), or a
  missing value (`blank`, pandas `NaN`).  Numbers are `Rat`: the program
  only adds and compares them, so exact arithmetic models its float use on
  the inputs the claims quantify over.
* A sheet is a `Frame`: a header list plus rows of cells.  `read_excel`
  mangles duplicate column labels (which is exactly where the
  `"Volume (KB).1"` headers come from), so column labels are unique and
  label-based selection coincides with selection by position; the model
  selects by position.
* File writes are modelled by returning the table that would be written
  together with a `Bool` that is `true` exactly when a write occurs.
* `pycountry.countries.lookup` (an external collaborator) is a parameter
  `lookup : String → Option String` returning the canonical country name;
  `st.stop()` after `st.error(...)` is modelled with `Except String`.
-/

/-- Python's `\s` on ASCII: the whitespace characters recognised by
`str.strip`, `str.split` and the `\s` regex class. -/
def isPySpace (c : Char) : Bool :=
  c = ' ' || c = '\t' || c = '\n' || c = '\r' || c = '\x0b' || c = '\x0c'

/-- ASCII lower-casing of one character (Python `str.lower` on ASCII). -/
def lowerChar (c : Char) : Char :=
  if 'A' ≤ c ∧ c ≤ 'Z' then Char.ofNat (c.toNat + 32) else c

/-- ASCII upper-casing of one character (Python `str.upper` on ASCII). -/
def upperChar (c : Char) : Char :=
  if 'a' ≤ c ∧ c ≤ 'z' then Char.ofNat (c.toNat - 32) else c

/-- Python `str.lower()`. -/
def pyLower (s : String) : String := ⟨s.data.map lowerChar⟩

/-- Python `str.upper()`. -/
def pyUpper (s : String) : String := ⟨s.data.map upperChar⟩

/-- Remove leading whitespace from a character list. -/
def trimL (l : List Char) : List Char := l.dropWhile isPySpace

/-- Remove trailing whitespace from a character list. -/
def trimR (l : List Char) : List Char := (l.reverse.dropWhile isPySpace).reverse

/-- Remove leading and trailing whitespace from a character list. -/
def stripChars (l : List Char) : List Char := trimR (trimL l)

/-- Python `str.strip()`. -/
def pyStrip (s : String) : String := ⟨stripChars s.data⟩

/-- `startsWithSeq pat l` decides whether `pat` is an initial segment of `l`. -/
def startsWithSeq : List Char → List Char → Bool
  | [], _ => true
  | _ :: _, [] => false
  | a :: as, b :: bs => a = b && startsWithSeq as bs

/-- `hasSeq pat l` decides whether `pat` occurs contiguously inside `l`
(Python's `pat in s` on strings). -/
def hasSeq (pat : List Char) : List Char → Bool
  | [] => pat.isEmpty
  | c :: cs => startsWithSeq pat (c :: cs) || hasSeq pat cs

/-- Python `pat in s` for strings. -/
def strContains (s pat : String) : Bool := hasSeq pat.data s.data

/-- `dropSeq pat l` removes the initial segment `pat` from `l`, failing if
`l` does not start with `pat`. -/
def dropSeq : List Char → List Char → Option (List Char)
  | [], l => some l
  | _ :: _, [] => none
  | a :: as, b :: bs => if a = b then dropSeq as bs else none

/-- Accumulator-based splitting of a character list at whitespace runs,
dropping empty fragments: Python `str.split()` with no argument.
`cur` holds the (reversed) characters of the word being read. -/
def splitWsGo (cur : List Char) : List Char → List (List Char)
  | [] => if cur.isEmpty then [] else [cur.reverse]
  | c :: cs =>
    if isPySpace c then
      if cur.isEmpty then splitWsGo [] cs else cur.reverse :: splitWsGo [] cs
    else
      splitWsGo (c :: cur) cs

/-- Python `str.split()` (split on whitespace runs, no empty words). -/
def pyWords (s : String) : List String := (splitWsGo [] s.data).map String.mk

-- Basic facts about the string primitives.

theorem isPySpace_lowerChar (c : Char) (h : isPySpace c = true) :
    lowerChar c = c := by
  simp only [isPySpace, Bool.or_eq_true, decide_eq_true_eq] at h
  rcases h with ((((h | h) | h) | h) | h) | h <;> subst h <;> decide

theorem isDigit_not_isPySpace (c : Char) (h : c.isDigit = true) :
    isPySpace c = false := by
  by_contra hc
  simp only [Bool.not_eq_false, isPySpace, Bool.or_eq_true, decide_eq_true_eq] at hc
  rcases hc with ((((hc | hc) | hc) | hc) | hc) | hc <;> subst hc <;> simp [Char.isDigit] at h

theorem mem_of_startsWithSeq {pat l : List Char} (h : startsWithSeq pat l = true) :
    ∀ c ∈ pat, c ∈ l := by
  induction pat generalizing l with
  | nil => intro c hc; cases hc
  | cons a as ih =>
    cases l with
    | nil => simp [startsWithSeq] at h
    | cons b bs =>
      simp only [startsWithSeq, Bool.and_eq_true, decide_eq_true_eq] at h
      intro c hc
      rcases List.mem_cons.mp hc with hc | hc
      · subst hc; rw [h.1]; exact List.mem_cons_self b bs
      · exact List.mem_cons_of_mem b (ih h.2 c hc)

theorem mem_of_hasSeq {pat l : List Char} (h : hasSeq pat l = true) :
    ∀ c ∈ pat, c ∈ l := by
  induction l with
  | nil =>
    cases pat with
    | nil => intro c hc; cases hc
    | cons p ps => simp [hasSeq, List.isEmpty] at h
  | cons b bs ih =>
    simp only [hasSeq, Bool.or_eq_true] at h
    rcases h with h | h
    · exact mem_of_startsWithSeq h
    · intro c hc; exact List.mem_cons_of_mem b (ih h c hc)

theorem trimL_spaces_append (pre l : List Char) (h : ∀ c ∈ pre, isPySpace c = true) :
    trimL (pre ++ l) = trimL l := by
  induction pre with
  | nil => rfl
  | cons c cs ih =>
    have hc : isPySpace c = true := h c (List.mem_cons_self c cs)
    simp only [trimL, List.cons_append, List.dropWhile_cons, hc, if_true]
    exact ih (fun d hd => h d (List.mem_cons_of_mem c hd))

/-- `stripChars` removes a whitespace-only left part and a whitespace-only
right part: the decomposition witnessing `l = pre ++ stripChars l ++ suf`. -/
theorem stripChars_decomp (l : List Char) :
    ∃ pre suf, l = pre ++ stripChars l ++ suf ∧
      (∀ c ∈ pre, isPySpace c = true) ∧ (∀ c ∈ suf, isPySpace c = true) := by
  refine ⟨l.takeWhile isPySpace, ((trimL l).reverse.takeWhile isPySpace).reverse, ?_, ?_, ?_⟩
  · have h1 : l = l.takeWhile isPySpace ++ trimL l :=
      (List.takeWhile_append_dropWhile isPySpace l).symm
    have h2 : (trimL l).reverse =
        (trimL l).reverse.takeWhile isPySpace ++ (trimL l).reverse.dropWhile isPySpace :=
      (List.takeWhile_append_dropWhile isPySpace (trimL l).reverse).symm
    have h3 : trimL l =
        ((trimL l).reverse.dropWhile isPySpace).reverse ++
        ((trimL l).reverse.takeWhile isPySpace).reverse := by
      conv_lhs => rw [← List.reverse_reverse (trimL l), h2, List.reverse_append]
    conv_lhs => rw [h1, h3]
    simp [stripChars, trimR, List.append_assoc]
  · intro c hc; exact List.mem_takeWhile_imp hc
  · intro c hc
    rw [List.mem_reverse] at hc
    exact List.mem_takeWhile_imp hc

/-- Filtering out whitespace is not affected by stripping. -/
theorem filter_stripChars (l : List Char) :
    (stripChars l).filter (fun c => !isPySpace c) =
    l.filter (fun c => !isPySpace c) := by
  obtain ⟨pre, suf, hl, hpre, hsuf⟩ := stripChars_decomp l
  conv_rhs => rw [hl]
  rw [List.filter_append, List.filter_append]
  have h1 : pre.filter (fun c => !isPySpace c) = [] := by
    rw [List.filter_eq_nil_iff]
    intro c hc; simp [hpre c hc]
  have h2 : suf.filter (fun c => !isPySpace c) = [] := by
    rw [List.filter_eq_nil_iff]
    intro c hc; simp [hsuf c hc]
  rw [h1, h2]; simp

theorem trimL_idem (l : List Char) : trimL (trimL l) = trimL l := by
  induction l with
  | nil => rfl
  | cons c cs ih =>
    by_cases h : isPySpace c = true
    · simp only [trimL, List.dropWhile_cons, h, if_true]
      exact ih
    · rw [Bool.not_eq_true] at h
      simp only [trimL, List.dropWhile_cons, h, Bool.false_eq_true, if_false]

theorem trimR_idem (l : List Char) : trimR (trimR l) = trimR l := by
  simp only [trimR, List.reverse_reverse]
  rw [show (l.reverse.dropWhile isPySpace).dropWhile isPySpace
      = l.reverse.dropWhile isPySpace from trimL_idem l.reverse]

/-- `trimR l` is a prefix of `l`. -/
theorem trimR_append (l : List Char) :
    l = trimR l ++ (l.reverse.takeWhile isPySpace).reverse := by
  conv_lhs => rw [← List.reverse_reverse l,
    ← List.takeWhile_append_dropWhile (p := isPySpace) (l := l.reverse),
    List.reverse_append]
  rfl

theorem trimL_trimR (l : List Char) (h : trimL l = l) : trimL (trimR l) = trimR l := by
  rcases htr : trimR l with _ | ⟨c, cs⟩
  · rfl
  · have hpre : l = c :: (cs ++ (l.reverse.takeWhile isPySpace).reverse) := by
      conv_lhs => rw [trimR_append l, htr]
      simp
    by_cases hc : isPySpace c = true
    · exfalso
      rw [hpre] at h
      simp only [trimL, List.dropWhile_cons, hc, if_true] at h
      have hlen := congrArg List.length h
      have hle := List.IsSuffix.length_le
        (List.dropWhile_suffix (l := cs ++ (l.reverse.takeWhile isPySpace).reverse) isPySpace)
      simp only [List.length_cons] at hlen
      omega
    · rw [Bool.not_eq_true] at hc
      simp only [trimL, List.dropWhile_cons, hc, Bool.false_eq_true, if_false]

theorem stripChars_idem (l : List Char) : stripChars (stripChars l) = stripChars l := by
  unfold stripChars
  rw [trimL_trimR (trimL l) (trimL_idem l), trimR_idem]

theorem pyStrip_idem (s : String) : pyStrip (pyStrip s) = pyStrip s := by
  simp [pyStrip, stripChars_idem]

/-! ## Data model: cells, frames, usage records -/

/-- One pandas cell, as delivered by `pd.read_excel`:
a numeric value, a non-numeric text (unparsable for
`pd.to_numeric(errors="coerce")`), or a missing value (`NaN`). -/
inductive Cell where
  | num (q : Rat)
  | text (s : String)
  | blank
  deriving DecidableEq

/-- `pd.to_numeric(errors="coerce")` followed by `.fillna(0)` on one cell
(app.py lines 242, 251, 256, 261, 379): numeric content is kept, anything
else coerces to `0`. -/
def coerceCell : Cell → Rat
  | .num q => q
  | .text _ => 0
  | .blank => 0

/-- Rendering of a cell by `.astype("string")` / `.astype(str)` followed by
`.fillna("")`: `NaN` becomes the empty string.  (The claims only exercise
this on text cells; the rendering of numeric cells is irrelevant to them.) -/
def cellStr : Cell → String
  | .num q => toString q
  | .text s => s
  | .blank => ""

/-- One worksheet as read by `pd.read_excel(..., skiprows=1)`: the header
row and the data rows below it. -/
structure Frame where
  headers : List String
  rows : List (List Cell)
  deriving DecidableEq

/-- One uploaded workbook: its filename and its (sheet-name, sheet) list. -/
structure Workbook where
  filename : String
  sheets : List (String × Frame)
  deriving DecidableEq

/-- One normalized usage row as emitted by `parse_workbook`
(columns `needed + ["Year", "Month"]`, plus the `SourceFile` tag added by
the caller loop at app.py line 423). -/
structure UsageRecord where
  partnerName : String
  networkId : String
  totalVolumeKb : Rat
  totalDurationMin : Rat
  totalGprsAmountUsd : Rat
  totalVoiceAmountUsd : Rat
  year : Option Nat
  month : String
  sourceFile : String
  deriving DecidableEq

/-! ## ColumnNormalizer: `standardize_columns` (app.py lines 189-265) -/

/-- Header cleaning at app.py line 190:
`str(c).strip().replace("\n", " ")`. -/
def cleanHeader (s : String) : String :=
  ⟨(pyStrip s).data.map (fun c => if c = '\n' then ' ' else c)⟩

/-- `norm` at app.py lines 193-194:
`re.sub(r"\s+", "", str(s).strip().lower())`. -/
def normH (s : String) : String :=
  ⟨(pyLower (pyStrip s)).data.filter (fun c => !isPySpace c)⟩

/-- Condition for the single total-volume column (app.py line 215):
`lc == "totalvolume(kb)" or ("total" in lc and "volume(kb)" in lc)`. -/
def volCondition (lc : String) : Bool :=
  lc = "totalvolume(kb)" || (strContains lc "total" && strContains lc "volume(kb)")

/-- Condition for the total-duration column (app.py lines 219-223). -/
def durCondition (lc : String) : Bool :=
  lc = "totalduration(min)" ||
  (strContains lc "total" && strContains lc "duration(min)") ||
  (strContains lc "totalduration" && strContains lc "min")

/-- Condition for the GPRS-amount column (app.py line 227). -/
def gprsCondition (lc : String) : Bool :=
  (strContains lc "totalgprs" && strContains lc "amount") || strContains lc "totalgprsamount"

/-- Condition for the voice-amount column (app.py line 231). -/
def voiceCondition (lc : String) : Bool :=
  (strContains lc "totalvoice" && strContains lc "amount") || strContains lc "totalvoiceamount"

/-- The optional `(\.\d+)?$` tail of the daily-volume regex: empty, or a
dot followed by at least one digit. -/
def dailyTail : List Char → Bool
  | [] => true
  | d :: ds => d = '.' && !ds.isEmpty && ds.all Char.isDigit

/-- The daily-volume header pattern (app.py line 202):
`re.compile(r"^volume\s*\(kb\)(\.\d+)?$", re.IGNORECASE)` matched against
the cleaned header (`daily_vol_regex.match(c_clean)`, line 235; the
pattern is anchored on both sides, so `match` is a full match). -/
def isDailyVolHeader (s : String) : Bool :=
  match dropSeq "volume".data (pyLower s).data with
  | none => false
  | some r =>
    match dropSeq "(kb)".data (r.dropWhile isPySpace) with
    | none => false
    | some t => dailyTail t

/-- How the header loop of `standardize_columns` (app.py lines 204-237)
classifies one (cleaned) column header.  The branches are tried in the
order of the `if ... continue` chain of the loop. -/
inductive HeaderClass where
  | partner | network | vol | dur | gprs | voice | daily | other
  deriving DecidableEq, BEq

/-- The `if ... continue` chain of the header loop (app.py lines 204-237),
applied to a cleaned header.  (`c_clean = str(c).strip()` equals the
cleaned header itself, which is already stripped.) -/
def classifyHeader (c : String) : HeaderClass :=
  let lc := normH c
  if strContains lc "partnername" then .partner
  else if strContains lc "networkid" then .network
  else if volCondition lc then .vol
  else if durCondition lc then .dur
  else if gprsCondition lc then .gprs
  else if voiceCondition lc then .voice
  else if isDailyVolHeader c then .daily
  else .other

/-- The rename map of app.py lines 208-213 and 239: columns matching the
partner/network test are renamed, all others keep their (cleaned) name. -/
def renameHeader (c : String) : String :=
  match classifyHeader c with
  | .partner => "Partner Name"
  | .network => "Network ID"
  | _ => c

/-- Column assignment `df[name] = ...`: appends the column label if it is
not already present (overwriting in place otherwise). -/
def assignCol (hs : List String) (name : String) : List String :=
  if name ∈ hs then hs else hs ++ [name]

/-- The column labels of the frame returned by `standardize_columns`:
headers are cleaned (line 190), partner/network columns renamed (line 239),
and the four canonical numeric columns assigned unconditionally
(lines 241-263). -/
def standardizedHeaders (hs : List String) : List String :=
  assignCol (assignCol (assignCol (assignCol
    ((hs.map cleanHeader).map renameHeader)
    "Total Volume(KB)") "Total Duration(min)") "Total GPRS Amount(USD)") "Total Voice Amount(USD)"

/-- Index of the column the loop variable `total_*_col` ends at: each
match overwrites the previous one, so it is the last matching column. -/
def lastIdxWhere (hs : List String) (p : String → Bool) : Option Nat :=
  ((List.range hs.length).filter (fun i => p (hs.getD i ""))).getLast?

/-- Indices of the `daily_volume_cols` list (app.py lines 235-236), in
column order. -/
def dailyIdxs (hs : List String) : List Nat :=
  (List.range hs.length).filter (fun i => classifyHeader (cleanHeader (hs.getD i "")) == .daily)

/-- The `Total Volume(KB)` value of one row (app.py lines 241-248): the
coerced single total column if one matched, otherwise the row-wise sum of
the coerced daily columns, otherwise `0.0`. -/
def totalVolumeOfRow (hs : List String) (row : List Cell) : Rat :=
  match lastIdxWhere hs (fun h => classifyHeader (cleanHeader h) == .vol) with
  | some i => coerceCell (row.getD i .blank)
  | none =>
    let ds := dailyIdxs hs
    if ds.isEmpty then 0
    else (ds.map (fun i => coerceCell (row.getD i .blank))).sum

/-- The value of a single-source numeric column (duration, GPRS, voice;
app.py lines 250-263): the coerced matched column, otherwise `0.0`. -/
def singleColVal (hs : List String) (row : List Cell) (cls : HeaderClass) : Rat :=
  match lastIdxWhere hs (fun h => classifyHeader (cleanHeader h) == cls) with
  | some i => coerceCell (row.getD i .blank)
  | none => 0

/-! ## CountryResolver helpers (app.py lines 59-183) -/

/-- The fixed `prefix_map` of `infer_country_from_network_id`
(app.py lines 65-136), in source order. -/
def prefixRules : List (String × String) :=
  [("ARG", "Argentina"), ("AUS", "Australia"), ("ESP", "Spain"),
   ("GBR", "United Kingdom"), ("HKG", "Hong Kong"), ("HRV", "Croatia"),
   ("IND", "India"), ("IRL", "Ireland"), ("ISR", "Israel"),
   ("JPN", "Japan"), ("KOR", "South Korea"), ("KWT", "Kuwait"),
   ("LBN", "Lebanon"), ("LTU", "Lithuania"), ("LUX", "Luxembourg"),
   ("MAC", "Macau"), ("MDV", "Maldives"), ("MEX", "Mexico"),
   ("MMR", "Myanmar"), ("MYS", "Malaysia"), ("NOR", "Norway"),
   ("NPL", "Nepal"), ("NZL", "New Zealand"), ("OMN", "Oman"),
   ("PAN", "Panama"), ("POL", "Poland"), ("PRI", "Puerto Rico"),
   ("QAT", "Qatar"), ("ROM", "Romania"), ("RUS", "Russia"),
   ("SAU", "Saudi Arabia"), ("SVK", "Slovakia"), ("SWE", "Sweden"),
   ("THA", "Thailand"), ("TUR", "Turkey"), ("USA", "United States"),
   ("AAZ", "Malta"), ("AFG", "Afghanistan"), ("ALB", "Albania"),
   ("AUT", "Austria"), ("BEL", "Belgium"), ("BGD", "Bangladesh"),
   ("BGR", "Bulgaria"), ("BRA", "Brazil"), ("CAN", "Canada"),
   ("CHE", "Switzerland"), ("CHN", "China"), ("CZE", "Czech Republic"),
   ("DEU", "Germany"), ("DNK", "Denmark"), ("EGY", "Egypt"),
   ("EST", "Estonia"), ("FIN", "Finland"), ("FRA", "France"),
   ("GHA", "Ghana"), ("GRC", "Greece"), ("HUN", "Hungary"),
   ("IDN", "Indonesia"), ("ITA", "Italy"), ("LKA", "Sri Lanka"),
   ("NLD", "Netherlands"), ("PAK", "Pakistan"), ("PHL", "Philippines"),
   ("PRT", "Portugal"), ("SGP", "Singapore"), ("ZAF", "South Africa"),
   ("LVA", "Latvia"), ("BMU", "Bermuda")]

/-- `infer_country_from_network_id` (app.py lines 59-137): `None` for a
missing value; otherwise the first three characters of the trimmed,
upper-cased identifier are looked up in `prefix_map` (Python `nid[:3]`
returns the whole string when it is shorter than three characters). -/
def infer_country_from_network_id (networkId : Option String) : Option String :=
  match networkId with
  | none => none
  | some s =>
    let nid := pyUpper (pyStrip s)
    let pfx : String := ⟨nid.data.take 3⟩
    List.lookup pfx prefixRules

/-- The fixed `rules` of `infer_country_from_partner`
(app.py lines 145-158), in source (insertion) order. -/
def partnerRules : List (String × String) :=
  [("reliance jio", "India"), ("jio infocomm", "India"),
   ("bharti airtel", "India"), ("airtel", "India"),
   ("vodafone essar", "India"), ("mtnl", "India"),
   ("mahanagar telephone nigam", "India"),
   ("tele2 latvia", "Latvia"), ("tele 2 latvia", "Latvia"),
   ("bermuda", "Bermuda")]

/-- `infer_country_from_partner` (app.py lines 140-163): the first rule
whose fragment occurs in the trimmed, lower-cased partner name wins. -/
def infer_country_from_partner (partnerName : Option String) : Option String :=
  match partnerName with
  | none => none
  | some s =>
    let name := pyLower (pyStrip s)
    (partnerRules.find? (fun kv => strContains name kv.1)).map Prod.snd

/-- `re.sub(r"[^A-Za-z\s]", " ", str(partner_name))` (app.py line 170):
every character that is neither an ASCII letter nor whitespace becomes a
space. -/
def subNonAlpha (s : String) : String :=
  ⟨s.data.map (fun c => if c.isAlpha || isPySpace c then c else ' ')⟩

/-- `" ".join(words[i : i + n])` (app.py line 177). -/
def joinSpace (ws : List String) : String := String.intercalate " " ws

/-- The word list of `detect_country_from_partner_text` (app.py line 174):
the words of the cleaned text `txt`, keeping only those of length ≥ 4. -/
def partnerWords (s : String) : List String :=
  (pyWords (pyStrip (subNonAlpha s))).filter (fun w => 4 ≤ w.length)

/-- `detect_country_from_partner_text` (app.py lines 166-183), with the
`pycountry.countries.lookup`-then-`.name` collaborator as the parameter
`lookup`: keep the alphabetic words of length at least 4
(`partnerWords`), then scan spans of 4, 3, 2, 1 consecutive words, each
length left to right, returning the first span the lookup resolves. -/
def detect_country_from_partner_text (lookup : String → Option String)
    (partnerName : Option String) : Option String :=
  match partnerName with
  | none => none
  | some s =>
    if pyStrip (subNonAlpha s) = "" then none
    else
      [4, 3, 2, 1].findSome? (fun n =>
        (List.range ((partnerWords s).length + 1 - n)).findSome? (fun i =>
          lookup (joinSpace (((partnerWords s).drop i).take n))))

/-- Modelled from the spec (§4.3 stage 3): the candidate phrases of the
fuzzy search, as the spec describes them — contiguous word spans of
length 4, then 3, then 2, then 1, each length scanned left to right.
Used to state the refinement theorem for the scanning order. -/
def spanPhrases (words : List String) : List String :=
  [4, 3, 2, 1].flatMap (fun n =>
    (List.range (words.length + 1 - n)).map (fun i => joinSpace ((words.drop i).take n)))

/-! ## The inference chain (app.py lines 437-463) -/

/-- One row of the joined frame `df` as `infer_chain` reads it
(app.py lines 442-448): the `Country` column produced by the left join
(`none` models `NaN`, i.e. no mapping match), plus the partner-name and
network-identifier columns. -/
structure RowJoin where
  country : Option String
  partnerName : String
  networkId : String
  deriving DecidableEq

/-- Python truthiness chaining `x = f(...); if x: return x` on an
optional string: a `None` or empty result falls through to `k`. -/
def pyFirst (o : Option String) (k : Unit → Option String) : Option String :=
  match o with
  | some s => if s ≠ "" then some s else k ()
  | none => k ()

/-- Stages 1-4 of `infer_chain` (app.py lines 447-463), reached when the
stage-0 direct-join country is missing or trims to empty.  `pm` is
`pm_dict.get` (app.py lines 437-440, a lower-cased-partner-name → country
dictionary, whose stored countries may be the normalized empty string). -/
def restChain (pm : String → Option String) (lookup : String → Option String)
    (partnerName0 networkId0 : String) : Option String :=
  let pname := pyStrip partnerName0
  let nid := pyStrip networkId0
  let cpm := if pname ≠ "" then (pm (pyLower pname)).getD "" else ""
  if cpm ≠ "" then some cpm
  else
    pyFirst (infer_country_from_partner (some pname)) (fun _ =>
      pyFirst (detect_country_from_partner_text lookup (some pname)) (fun _ =>
        infer_country_from_network_id (some nid)))

/-- `infer_chain` (app.py lines 442-463): if the direct-join country is
present and non-empty after trimming it is returned trimmed; otherwise
the partner-table, rule, fuzzy-text and network-prefix stages run in
order. -/
def infer_chain (pm : String → Option String) (lookup : String → Option String)
    (row : RowJoin) : Option String :=
  match row.country with
  | some c => if pyStrip c ≠ "" then some (pyStrip c) else restChain pm lookup row.partnerName row.networkId
  | none => restChain pm lookup row.partnerName row.networkId

/-! ## MappingStore: merge and persist (app.py lines 287-341) -/

/-- Trimming of both fields of a candidate pair
(app.py lines 292-293 / 330-331). -/
def trimPair (p : String × String) : String × String := (pyStrip p.1, pyStrip p.2)

/-- The candidate pairs that survive trimming and the empty-key /
empty-country filter (app.py lines 292-294 / 330-332). -/
def qualifyingPairs (l : List (String × String)) : List (String × String) :=
  (l.map trimPair).filter (fun p => p.1 ≠ "" && p.2 ≠ "")

/-- `drop_duplicates(subset=[key], keep="last")` (app.py line 302 / 337):
keep a pair exactly when no later pair has the same key. -/
def dedupKeepLast : List (String × String) → List (String × String)
  | [] => []
  | p :: ps =>
    if ps.any (fun q => q.1 == p.1) then dedupKeepLast ps else p :: dedupKeepLast ps

/-- `sort_values(key)` (app.py line 302 / 337): sort by key (keys are
unique after deduplication, so any by-key sort gives the same list). -/
def sortByKey (l : List (String × String)) : List (String × String) :=
  List.insertionSort (fun a b => a.1 ≤ b.1) l

/-- `save_new_mappings_to_csv` (app.py lines 287-306).  The returned
`Bool` is `true` exactly when the table is written to disk (line 305);
the returned list is the in-memory table the function returns, which on a
write equals the persisted table. -/
def save_new_mappings_to_csv (mapping newPairs : List (String × String)) :
    List (String × String) × Bool :=
  if newPairs.isEmpty then (mapping, false)
  else
    let np := qualifyingPairs newPairs
    if np.isEmpty then (mapping, false)
    else (sortByKey (dedupKeepLast (mapping ++ np)), true)

/-- `save_partner_mappings` (app.py lines 325-341): identical logic on
the partner-keyed table (columns `Partner Name, Country`). -/
def save_partner_mappings (pm newDf : List (String × String)) :
    List (String × String) × Bool :=
  if newDf.isEmpty then (pm, false)
  else
    let np := qualifyingPairs newDf
    if np.isEmpty then (pm, false)
    else (sortByKey (dedupKeepLast (pm ++ np)), true)

/-- Last-occurrence-wins view of a table: the value the key ends up with
under `drop_duplicates(keep="last")` semantics. -/
def lastVal (l : List (String × String)) (k : String) : Option String :=
  List.lookup k l.reverse

/-! ## Auto-save of inferred network mappings (app.py lines 471-477) -/

/-- `drop_duplicates()` on whole pairs, keep-first (app.py line 472);
`seen` accumulates the pairs already emitted. -/
def dedupPairsKeepFirstGo (seen : List (String × String)) :
    List (String × String) → List (String × String)
  | [] => []
  | p :: ps =>
    if seen.contains p then dedupPairsKeepFirstGo seen ps
    else p :: dedupPairsKeepFirstGo (p :: seen) ps

/-- `df[["Network ID", "Country_inferred"]].drop_duplicates()`. -/
def dedupPairsKeepFirst (l : List (String × String)) : List (String × String) :=
  dedupPairsKeepFirstGo [] l

/-- The inferred-pairs batch of the auto-save (app.py lines 472-475):
deduplicate the (network id, inferred country) pairs, exclude ids whose
trimmed form is already a (trimmed) key of the loaded mapping
(`mapped_set`, line 473 — with no condition on the stored country), and
keep only pairs with a non-empty trimmed country. -/
def autoSavePairs (mapping : List (String × String)) (rows : List (String × String)) :
    List (String × String) :=
  let np := dedupPairsKeepFirst rows
  let np := np.filter (fun p => !((mapping.map (fun e => pyStrip e.1)).contains (pyStrip p.1)))
  np.filter (fun p => pyStrip p.2 ≠ "")

/-- The auto-save step (app.py lines 476-477): merge the inferred batch
into the network table when it is non-empty. -/
def autoSave (mapping : List (String × String)) (rows : List (String × String)) :
    List (String × String) × Bool :=
  let np := autoSavePairs mapping rows
  if np.isEmpty then (mapping, false) else save_new_mappings_to_csv mapping np

/-! ## SheetExtractor: `parse_workbook` (app.py lines 347-392) and the
all-files aggregation (app.py lines 420-429) -/

/-- A position matching `(19\d{2}|20\d{2})` at the head of the list, with
the matched year value. -/
def yearAt : List Char → Option Nat
  | a :: b :: c :: d :: _ =>
    if ((a = '1' ∧ b = '9') ∨ (a = '2' ∧ b = '0')) ∧ c.isDigit ∧ d.isDigit then
      some ((a.toNat - 48) * 1000 + (b.toNat - 48) * 100 + (c.toNat - 48) * 10 + (d.toNat - 48))
    else none
  | _ => none

/-- Leftmost-position scan of `re.search`. -/
def yearScan : List Char → Option Nat
  | [] => none
  | c :: cs =>
    match yearAt (c :: cs) with
    | some y => some y
    | none => yearScan cs

/-- `safe_year_from_filename` (app.py lines 22-24): the first 4-digit
token matching `19\d{2}` or `20\d{2}` in the filename, else `None`. -/
def safe_year_from_filename (name : String) : Option Nat := yearScan name.data

/-- Position of the column carrying a given label after
`standardize_columns` renaming; pandas label selection (`df[label]`)
takes the (unique, cf. module docstring) column with that label. -/
def labelIdx (hs : List String) (label : String) : Option Nat :=
  ((hs.map cleanHeader).map renameHeader).findIdx? (fun h => h == label)

/-- Cell of a row at an optional column position (`.blank` when the
column is absent; the guarded callers only use present columns). -/
def cellAt (row : List Cell) : Option Nat → Cell
  | some i => row.getD i .blank
  | none => .blank

/-- The canonical columns checked by `needed` (app.py lines 360-364). -/
def neededCols : List String :=
  ["Partner Name", "Network ID", "Total Volume(KB)", "Total Duration(min)",
   "Total GPRS Amount(USD)", "Total Voice Amount(USD)"]

/-- `any(col not in df.columns for col in needed)` (app.py line 365): the
per-sheet rejection test, decided on the standardized column labels. -/
def sheetLacksRequired (hs : List String) : Bool :=
  neededCols.any (fun c => !((standardizedHeaders hs).contains c))

/-- The row filter of app.py lines 368-376: both identifier cells must be
non-empty after trimming and neither may be a summary marker
(`"total"`/`"grand total"`, case-insensitive, on the trimmed value). -/
def rowKept (hs : List String) (row : List Cell) : Bool :=
  let p := pyStrip (cellStr (cellAt row (labelIdx hs "Partner Name")))
  let n := pyStrip (cellStr (cellAt row (labelIdx hs "Network ID")))
  p ≠ "" && n ≠ "" &&
  !(["total", "grand total"].contains (pyLower p)) &&
  !(["total", "grand total"].contains (pyLower n))

/-- One surviving row turned into the emitted record
(app.py lines 378-383): the identifier columns keep their original cell
values (the stripped series is used only for filtering), the numeric
columns carry the standardized values (the re-coercion at lines 378-379
is the identity on them, as they are already coerced and NaN-free). -/
def mkRecord (hs : List String) (year : Option Nat) (month : String)
    (row : List Cell) : UsageRecord :=
  { partnerName := cellStr (cellAt row (labelIdx hs "Partner Name"))
    networkId := cellStr (cellAt row (labelIdx hs "Network ID"))
    totalVolumeKb := totalVolumeOfRow hs row
    totalDurationMin := singleColVal hs row .dur
    totalGprsAmountUsd := singleColVal hs row .gprs
    totalVoiceAmountUsd := singleColVal hs row .voice
    year := year
    month := month
    sourceFile := "" }

/-- The records one sheet contributes (app.py lines 352-383): nothing for
a reserved sheet name (`"total"`, `"sheet1"`; line 354) or a sheet
missing a mandatory identifier column (line 365), otherwise the filtered,
tagged rows. -/
def sheetRecords (year : Option Nat) (sheetName : String) (f : Frame) : List UsageRecord :=
  if ["total", "sheet1"].contains (pyLower (pyStrip sheetName)) then []
  else if sheetLacksRequired f.headers then []
  else (f.rows.filter (rowKept f.headers)).map (mkRecord f.headers year sheetName)

/-- `parse_workbook` (app.py lines 347-392): the concatenation of all
sheets' records.  (When no sheet appends a frame the function returns an
empty frame with the canonical columns, which is the empty record list.) -/
def parse_workbook (wb : Workbook) : List UsageRecord :=
  (wb.sheets.map (fun sf => sheetRecords (safe_year_from_filename wb.filename) sf.1 sf.2)).flatten

/-- The concatenation of every uploaded workbook's records, each tagged
with its source file (app.py lines 420-426). -/
def allRecords (files : List Workbook) : List UsageRecord :=
  (files.map (fun wb =>
    (parse_workbook wb).map (fun r => { r with sourceFile := wb.filename }))).flatten

/-- The aggregation over all uploaded files (app.py lines 420-429): if
the concatenation is empty, `st.error(...)`/`st.stop()` abort the run,
which is modelled as `Except.error` with the reported message. -/
def raw_all (files : List Workbook) : Except String (List UsageRecord) :=
  if (allRecords files).isEmpty then
    .error "No usable data found. Check sheet names/headers."
  else .ok (allRecords files)

/-! ## Association-table lemmas for the merge semantics -/

instance : IsTotal (String × String) (fun a b => a.1 ≤ b.1) :=
  ⟨fun a b => le_total a.1 b.1⟩

instance : IsTrans (String × String) (fun a b => a.1 ≤ b.1) :=
  ⟨fun _ _ _ h₁ h₂ => le_trans h₁ h₂⟩

theorem lookup_eq_none_iff (k : String) (m : List (String × String)) :
    List.lookup k m = none ↔ k ∉ m.map Prod.fst := by
  induction m with
  | nil => simp
  | cons p ps ih =>
    cases p with
    | mk a b =>
      by_cases h : k = a
      · subst h
        simp [List.lookup_cons]
      · have hba : (k == a) = false := beq_false_of_ne h
        simp [List.lookup_cons, hba, ih, h]

theorem lookup_mem {k v : String} {m : List (String × String)}
    (h : List.lookup k m = some v) : (k, v) ∈ m := by
  induction m with
  | nil => simp [List.lookup] at h
  | cons p ps ih =>
    cases p with
    | mk a b =>
      rw [List.lookup_cons] at h
      by_cases hk : k = a
      · subst hk
        simp only [beq_self_eq_true] at h
        cases h
        exact List.mem_cons_self _ _
      · have hba : (k == a) = false := beq_false_of_ne hk
        rw [hba] at h
        exact List.mem_cons_of_mem _ (ih h)

theorem lookup_eq_some_of_mem_nodupKeys {k v : String} {m : List (String × String)}
    (hnd : (m.map Prod.fst).Nodup) (hmem : (k, v) ∈ m) :
    List.lookup k m = some v := by
  induction m with
  | nil => cases hmem
  | cons p ps ih =>
    cases p with
    | mk a b =>
      rw [List.map_cons, List.nodup_cons] at hnd
      rcases List.mem_cons.mp hmem with hkv | hkv
      · cases hkv
        simp [List.lookup_cons]
      · have hk : k ≠ a := by
          intro hka
          subst hka
          exact hnd.1 (List.mem_map.mpr ⟨(k, v), hkv, rfl⟩)
        have hba : (k == a) = false := beq_false_of_ne hk
        rw [List.lookup_cons, hba]
        exact ih hnd.2 hkv

/-- Last-wins lookup of a cons cell. -/
theorem lastVal_cons (p : String × String) (l : List (String × String)) (k : String) :
    lastVal (p :: l) k =
      (lastVal l k).or (if k = p.1 then some p.2 else none) := by
  unfold lastVal
  rw [List.reverse_cons, List.lookup_append]
  congr 1
  cases p with
  | mk a b =>
    by_cases h : k = a
    · subst h; simp [List.lookup_cons, List.lookup]
    · simp [List.lookup_cons, List.lookup, beq_false_of_ne h, h]

theorem lastVal_eq_none_iff (l : List (String × String)) (k : String) :
    lastVal l k = none ↔ k ∉ l.map Prod.fst := by
  unfold lastVal
  rw [lookup_eq_none_iff, List.map_reverse, List.mem_reverse]

theorem lastVal_isSome_of_mem_keys {l : List (String × String)} {k : String}
    (h : k ∈ l.map Prod.fst) : lastVal l k ≠ none := by
  rw [Ne, lastVal_eq_none_iff]
  exact fun hn => hn h

theorem mem_keys_of_lastVal_eq_some {l : List (String × String)} {k v : String}
    (h : lastVal l k = some v) : k ∈ l.map Prod.fst := by
  by_contra hn
  rw [← lastVal_eq_none_iff] at hn
  rw [h] at hn
  cases hn

theorem or_some_left (a : String) (o : Option String) : (some a).or o = some a := rfl

/-- `drop_duplicates(keep="last")` keeps exactly the pairs that are the
last occurrence of their key. -/
theorem mem_dedupKeepLast_iff (l : List (String × String)) (p : String × String) :
    p ∈ dedupKeepLast l ↔ lastVal l p.1 = some p.2 := by
  obtain ⟨k, v⟩ := p
  induction l with
  | nil => simp [dedupKeepLast, lastVal]
  | cons q ps ih =>
    rw [lastVal_cons]
    have hcons : dedupKeepLast (q :: ps) =
        if ps.any (fun r => r.1 == q.1) then dedupKeepLast ps else q :: dedupKeepLast ps := rfl
    by_cases hq : ps.any (fun r => r.1 == q.1) = true
    · have hkeys : q.1 ∈ ps.map Prod.fst := by
        rcases List.any_eq_true.mp hq with ⟨r, hr, hrq⟩
        exact List.mem_map.mpr ⟨r, hr, eq_of_beq hrq⟩
      rw [hcons, if_pos hq, ih]
      constructor
      · intro h; rw [h, or_some_left]
      · intro h
        cases hlv : lastVal ps (k, v).1 with
        | some w =>
          rw [hlv, or_some_left] at h
          exact h
        | none =>
          exfalso
          rw [hlv, Option.none_or] at h
          by_cases hkq : (k, v).1 = q.1
          · have hp : (k, v).1 ∈ ps.map Prod.fst := by rw [hkq]; exact hkeys
            exact lastVal_isSome_of_mem_keys hp hlv
          · rw [if_neg hkq] at h
            cases h
    · have hkeys : q.1 ∉ ps.map Prod.fst := by
        intro hmem
        rcases List.mem_map.mp hmem with ⟨r, hr, hrq⟩
        exact hq (List.any_eq_true.mpr ⟨r, hr, beq_of_eq hrq⟩)
      rw [hcons, if_neg hq]
      constructor
      · intro h
        rcases List.mem_cons.mp h with h | h
        · have hnone : lastVal ps q.1 = none := (lastVal_eq_none_iff ps q.1).mpr hkeys
          rw [h, hnone, Option.none_or, if_pos rfl]
        · rw [ih.mp h, or_some_left]
      · intro h
        cases hlv : lastVal ps (k, v).1 with
        | some w =>
          rw [hlv, or_some_left] at h
          exact List.mem_cons_of_mem _ (ih.mpr (hlv.trans h))
        | none =>
          rw [hlv, Option.none_or] at h
          by_cases hkq : (k, v).1 = q.1
          · rw [if_pos hkq] at h
            have h2 : q.2 = v := Option.some.inj h
            have hp : (k, v) = q := by
              obtain ⟨q1, q2⟩ := q
              simp only at hkq h2
              rw [hkq, ← h2]
            rw [hp]
            exact List.mem_cons_self _ _
          · rw [if_neg hkq] at h
            cases h

theorem keys_dedupKeepLast_sub {l : List (String × String)} {k : String}
    (h : k ∈ (dedupKeepLast l).map Prod.fst) : k ∈ l.map Prod.fst := by
  rcases List.mem_map.mp h with ⟨p, hp, hpk⟩
  subst hpk
  exact mem_keys_of_lastVal_eq_some ((mem_dedupKeepLast_iff l p).mp hp)

theorem nodupKeys_dedupKeepLast (l : List (String × String)) :
    ((dedupKeepLast l).map Prod.fst).Nodup := by
  induction l with
  | nil => simp [dedupKeepLast]
  | cons q ps ih =>
    have hcons : dedupKeepLast (q :: ps) =
        if ps.any (fun r => r.1 == q.1) then dedupKeepLast ps else q :: dedupKeepLast ps := rfl
    by_cases hq : ps.any (fun r => r.1 == q.1) = true
    · rw [hcons, if_pos hq]; exact ih
    · rw [hcons, if_neg hq, List.map_cons, List.nodup_cons]
      refine ⟨fun hmem => ?_, ih⟩
      have hkeys : q.1 ∈ ps.map Prod.fst := keys_dedupKeepLast_sub hmem
      rcases List.mem_map.mp hkeys with ⟨r, hr, hrq⟩
      exact hq (List.any_eq_true.mpr ⟨r, hr, beq_of_eq hrq⟩)

theorem lastVal_append (m n : List (String × String)) (k : String) :
    lastVal (m ++ n) k = (lastVal n k).or (lastVal m k) := by
  unfold lastVal
  rw [List.reverse_append, List.lookup_append]

/-- `sortByKey` is a permutation, so membership and key-sets are
preserved. -/
theorem sortByKey_perm (l : List (String × String)) : (sortByKey l).Perm l :=
  List.perm_insertionSort _ l

theorem mem_sortByKey_iff (l : List (String × String)) (p : String × String) :
    p ∈ sortByKey l ↔ p ∈ l :=
  (sortByKey_perm l).mem_iff

theorem nodupKeys_sortByKey {l : List (String × String)}
    (h : (l.map Prod.fst).Nodup) : ((sortByKey l).map Prod.fst).Nodup :=
  (((sortByKey_perm l).map Prod.fst).nodup_iff).mpr h

/-- For a table with pairwise-distinct keys, the last-wins view agrees
with plain lookup, and both are determined by membership. -/
theorem lastVal_eq_some_of_mem_nodupKeys {l : List (String × String)} {k v : String}
    (hnd : (l.map Prod.fst).Nodup) (hmem : (k, v) ∈ l) :
    lastVal l k = some v := by
  unfold lastVal
  refine lookup_eq_some_of_mem_nodupKeys ?_ (List.mem_reverse.mpr hmem)
  rw [List.map_reverse]
  exact List.nodup_reverse.mpr hnd

/-- Characterization of the merge functions: the result depends only on
the qualifying pairs (empty-input and all-filtered calls are no-ops). -/
theorem merge_eq (m n : List (String × String)) :
    save_new_mappings_to_csv m n =
      if qualifyingPairs n = [] then (m, false)
      else (sortByKey (dedupKeepLast (m ++ qualifyingPairs n)), true) := by
  unfold save_new_mappings_to_csv
  cases n with
  | nil => simp [qualifyingPairs]
  | cons p ps =>
    rw [if_neg (by simp : ((p :: ps).isEmpty = true) → False)]
    by_cases h : qualifyingPairs (p :: ps) = []
    · rw [if_pos (List.isEmpty_iff.mpr h), if_pos h]
    · rw [if_neg (fun hc => h (List.isEmpty_iff.mp hc)), if_neg h]

theorem save_partner_eq_save_network (m n : List (String × String)) :
    save_partner_mappings m n = save_new_mappings_to_csv m n := rfl

/-- New qualifying pairs win: the merged table maps a key to the last
qualifying candidate value for that key, whatever the old table held. -/
theorem merge_lastVal_new (m n : List (String × String)) (k c : String)
    (h : lastVal (qualifyingPairs n) k = some c) :
    lastVal (save_new_mappings_to_csv m n).1 k = some c := by
  have hne : qualifyingPairs n ≠ [] := by
    intro hnil
    rw [hnil] at h
    cases h
  rw [merge_eq, if_neg hne]
  have hlast : lastVal (m ++ qualifyingPairs n) k = some c := by
    rw [lastVal_append, h, or_some_left]
  have hmem : (k, c) ∈ dedupKeepLast (m ++ qualifyingPairs n) :=
    (mem_dedupKeepLast_iff _ (k, c)).mpr hlast
  exact lastVal_eq_some_of_mem_nodupKeys
    (nodupKeys_sortByKey (nodupKeys_dedupKeepLast _))
    ((mem_sortByKey_iff _ _).mpr hmem)

/-- Old entries whose key is not overwritten keep their (last-wins)
value through the merge. -/
theorem merge_lastVal_old (m n : List (String × String)) (k c : String)
    (h : lastVal m k = some c) (hk : k ∉ (qualifyingPairs n).map Prod.fst) :
    lastVal (save_new_mappings_to_csv m n).1 k = some c := by
  rw [merge_eq]
  by_cases hq : qualifyingPairs n = []
  · rw [if_pos hq]
    exact h
  · rw [if_neg hq]
    have hnone : lastVal (qualifyingPairs n) k = none :=
      (lastVal_eq_none_iff _ k).mpr hk
    have hlast : lastVal (m ++ qualifyingPairs n) k = some c := by
      rw [lastVal_append, hnone, Option.none_or]
      exact h
    have hmem : (k, c) ∈ dedupKeepLast (m ++ qualifyingPairs n) :=
      (mem_dedupKeepLast_iff _ (k, c)).mpr hlast
    exact lastVal_eq_some_of_mem_nodupKeys
      (nodupKeys_sortByKey (nodupKeys_dedupKeepLast _))
      ((mem_sortByKey_iff _ _).mpr hmem)

/-! ## Claim C2: merge semantics of the mapping stores -/

theorem qualifyingPairs_cons_of_bad (p : String × String) (n : List (String × String))
    (h : pyStrip p.1 = "" ∨ pyStrip p.2 = "") :
    qualifyingPairs (p :: n) = qualifyingPairs n := by
  unfold qualifyingPairs
  rw [List.map_cons, List.filter_cons]
  have hcond : ((trimPair p).1 ≠ "" && (trimPair p).2 ≠ "") = false := by
    rcases h with h | h <;> simp [trimPair, h]
  rw [hcond]
  simp

/-- C2: for both mapping tables, `merge` trims both fields of the
candidate pairs, drops pairs with an empty key or country, unions the
survivors with the existing table, deduplicates by key keeping the last
occurrence (so a candidate overwrites a prior value for the same key),
sorts by key, and persists/returns the result; with no surviving pair it
returns the table unchanged and performs no write. -/
theorem merge_semantics :
    (∀ m n, save_partner_mappings m n = save_new_mappings_to_csv m n) ∧
    (∀ m n, qualifyingPairs n = [] → save_new_mappings_to_csv m n = (m, false)) ∧
    (∀ m n, qualifyingPairs n ≠ [] →
      (save_new_mappings_to_csv m n).2 = true ∧
      (save_new_mappings_to_csv m n).1 =
        sortByKey (dedupKeepLast (m ++ qualifyingPairs n)) ∧
      List.Sorted (fun a b : String × String => a.1 ≤ b.1)
        (save_new_mappings_to_csv m n).1 ∧
      (((save_new_mappings_to_csv m n).1).map Prod.fst).Nodup) ∧
    (∀ m p n, (pyStrip p.1 = "" ∨ pyStrip p.2 = "") →
      save_new_mappings_to_csv m (p :: n) = save_new_mappings_to_csv m n) ∧
    (∀ m n k c, lastVal (qualifyingPairs n) k = some c →
      lastVal (save_new_mappings_to_csv m n).1 k = some c) ∧
    (∀ m n k c, lastVal m k = some c → k ∉ (qualifyingPairs n).map Prod.fst →
      lastVal (save_new_mappings_to_csv m n).1 k = some c) := by
  refine ⟨save_partner_eq_save_network, ?_, ?_, ?_, merge_lastVal_new, merge_lastVal_old⟩
  · intro m n h
    rw [merge_eq, if_pos h]
  · intro m n h
    rw [merge_eq, if_neg h]
    exact ⟨rfl, rfl, List.sorted_insertionSort _ _,
      nodupKeys_sortByKey (nodupKeys_dedupKeepLast _)⟩
  · intro m p n h
    rw [merge_eq, merge_eq, qualifyingPairs_cons_of_bad p n h]

theorem merge_semantics_witness :
    lastVal (save_new_mappings_to_csv [("K", "Old")] [(" K ", " New ")]).1 "K" = some "New" :=
  merge_semantics.2.2.2.2.1 [("K", "Old")] [(" K ", " New ")] "K" "New" (by decide)

/-! ## Claim C10: the auto-save never touches an existing network entry -/

theorem autoSavePairs_excludes {mapping rows : List (String × String)}
    {p : String × String} (hp : p ∈ autoSavePairs mapping rows) :
    ∀ e ∈ mapping, pyStrip p.1 ≠ pyStrip e.1 := by
  intro e he heq
  unfold autoSavePairs at hp
  have hp1 := (List.mem_filter.mp hp).1
  have hcont := (List.mem_filter.mp hp1).2
  simp only [Bool.not_eq_true'] at hcont
  have hmem : pyStrip p.1 ∈ mapping.map (fun e => pyStrip e.1) :=
    List.mem_map.mpr ⟨e, he, heq.symm⟩
  have : (mapping.map (fun e => pyStrip e.1)).contains (pyStrip p.1) = true :=
    List.elem_iff.mpr hmem
  rw [this] at hcont
  cases hcont

/-- C10: the automatic post-inference save never modifies an existing
network-mapping entry: every pair of the inferred batch has a trimmed key
different from every (trimmed) key already in the loaded table — with no
condition on the stored country, so entries whose country normalized to
empty are protected too — hence the merge leaves every existing key's
value unchanged; by contrast, a manually saved batch
(`save_new_mappings_to_csv` on operator-entered pairs) can overwrite. -/
theorem auto_save_never_overwrites :
    (∀ mapping rows p, p ∈ autoSavePairs mapping rows →
      ∀ e ∈ mapping, pyStrip p.1 ≠ pyStrip e.1) ∧
    (∀ mapping rows, (∀ e ∈ mapping, pyStrip e.1 = e.1) →
      ∀ k c, lastVal mapping k = some c → lastVal (autoSave mapping rows).1 k = some c) ∧
    List.lookup "X" (save_new_mappings_to_csv [("X", "A")] [("X", "B")]).1 = some "B" := by
  refine ⟨fun mapping rows p hp => autoSavePairs_excludes hp, ?_, by decide⟩
  intro mapping rows htrim k c hlv
  unfold autoSave
  by_cases hemp : (autoSavePairs mapping rows).isEmpty = true
  · rw [if_pos hemp]
    exact hlv
  · rw [if_neg hemp]
    refine merge_lastVal_old mapping (autoSavePairs mapping rows) k c hlv ?_
    intro hk
    rcases List.mem_map.mp hk with ⟨q, hq, hq1⟩
    rcases List.mem_filter.mp hq with ⟨hq2, -⟩
    rcases List.mem_map.mp hq2 with ⟨p, hp, hpq⟩
    rcases List.mem_map.mp (mem_keys_of_lastVal_eq_some hlv) with ⟨e, he, he1⟩
    have hne := autoSavePairs_excludes hp e he
    rw [htrim e he, he1] at hne
    apply hne
    rw [← hq1, ← hpq]
    rfl

theorem auto_save_never_overwrites_witness :
    lastVal (autoSave [("IND1", "India")] [("GBR2", "UK"), ("IND1", "X")]).1 "IND1"
      = some "India" :=
  auto_save_never_overwrites.2.1 [("IND1", "India")] [("GBR2", "UK"), ("IND1", "X")]
    (by decide) "IND1" "India" (by decide)

/-! ## Claim C9: totality of the network-prefix inference -/

theorem infer_network_short (s : String)
    (h : (pyUpper (pyStrip s)).data.length < 3) :
    infer_country_from_network_id (some s) =
      List.lookup (pyUpper (pyStrip s)) prefixRules := by
  show List.lookup (⟨(pyUpper (pyStrip s)).data.take 3⟩ : String) prefixRules =
    List.lookup (pyUpper (pyStrip s)) prefixRules
  rw [List.take_of_length_le (le_of_lt h)]

/-- C9: `infer_country_from_network_id` is total — a missing value, the
empty string linebreak, or an identifier of fewer than three characters all
return without raising; a short identifier is looked up with its entire
trimmed upper-cased text as the prefix, and yields a country only when
that text is itself a key of the fixed prefix table. -/
theorem network_prefix_total :
    infer_country_from_network_id none = none ∧
    infer_country_from_network_id (some "") = none ∧
    (∀ s, (pyUpper (pyStrip s)).data.length < 3 →
      infer_country_from_network_id (some s) =
        List.lookup (pyUpper (pyStrip s)) prefixRules) ∧
    (∀ s c, (pyUpper (pyStrip s)).data.length < 3 →
      infer_country_from_network_id (some s) = some c →
      (pyUpper (pyStrip s), c) ∈ prefixRules) := by
  refine ⟨rfl, by decide, infer_network_short, ?_⟩
  intro s c h heq
  rw [infer_network_short s h] at heq
  exact lookup_mem heq

theorem network_prefix_total_witness :
    infer_country_from_network_id (some "mt") =
      List.lookup (pyUpper (pyStrip "mt")) prefixRules :=
  network_prefix_total.2.2.1 "mt" (by decide)

/-! ## Claim C1: the resolution stages run in a fixed order -/

theorem pyFirst_none (k : Unit → Option String) : pyFirst none k = k () := rfl

theorem pyFirst_some (s : String) (k : Unit → Option String) :
    pyFirst (some s) k = if s ≠ "" then some s else k () := rfl

/-- C1: the chain applies its stages in order and returns the first
non-empty result; a record whose direct-join country is non-empty after
trimming gets exactly that trimmed value, for every partner table, every
lookup collaborator, and every partner/network value — the later stages
are never consulted.  The remaining conjuncts verify the order of
stages 1-4 when the earlier ones yield nothing. -/
theorem resolution_stage_order :
    (∀ pm lookup c p nid, pyStrip c ≠ "" →
      infer_chain pm lookup ⟨some c, p, nid⟩ = some (pyStrip c)) ∧
    (∀ pm lookup p nid v, pyStrip p ≠ "" →
      pm (pyLower (pyStrip p)) = some v → v ≠ "" →
      infer_chain pm lookup ⟨none, p, nid⟩ = some v) ∧
    (∀ pm lookup p nid c2,
      (if pyStrip p ≠ "" then (pm (pyLower (pyStrip p))).getD "" else "") = "" →
      infer_country_from_partner (some (pyStrip p)) = some c2 → c2 ≠ "" →
      infer_chain pm lookup ⟨none, p, nid⟩ = some c2) ∧
    (∀ pm lookup p nid c3,
      (if pyStrip p ≠ "" then (pm (pyLower (pyStrip p))).getD "" else "") = "" →
      infer_country_from_partner (some (pyStrip p)) = none →
      detect_country_from_partner_text lookup (some (pyStrip p)) = some c3 → c3 ≠ "" →
      infer_chain pm lookup ⟨none, p, nid⟩ = some c3) ∧
    (∀ pm lookup p nid,
      (if pyStrip p ≠ "" then (pm (pyLower (pyStrip p))).getD "" else "") = "" →
      infer_country_from_partner (some (pyStrip p)) = none →
      detect_country_from_partner_text lookup (some (pyStrip p)) = none →
      infer_chain pm lookup ⟨none, p, nid⟩ =
        infer_country_from_network_id (some (pyStrip nid))) := by
  refine ⟨?_, ?_, ?_, ?_, ?_⟩
  · intro pm lookup c p nid h
    show (if pyStrip c ≠ "" then some (pyStrip c) else restChain pm lookup p nid)
      = some (pyStrip c)
    rw [if_pos h]
  · intro pm lookup p nid v hp hpm hv
    show restChain pm lookup p nid = some v
    simp only [restChain]
    rw [if_pos hp, hpm]
    simp only [Option.getD_some]
    rw [if_pos hv]
  · intro pm lookup p nid c2 hcpm h2 h2ne
    show restChain pm lookup p nid = some c2
    simp only [restChain]
    rw [hcpm, if_neg (fun hcon => hcon rfl), h2, pyFirst_some, if_pos h2ne]
  · intro pm lookup p nid c3 hcpm h2 h3 h3ne
    show restChain pm lookup p nid = some c3
    simp only [restChain]
    rw [hcpm, if_neg (fun hcon => hcon rfl), h2]
    simp only [pyFirst_none]
    rw [h3, pyFirst_some, if_pos h3ne]
  · intro pm lookup p nid hcpm h2 h3
    show restChain pm lookup p nid =
      infer_country_from_network_id (some (pyStrip nid))
    simp only [restChain]
    rw [hcpm, if_neg (fun hcon => hcon rfl), h2]
    simp only [pyFirst_none]
    rw [h3]
    simp only [pyFirst_none]

theorem resolution_stage_order_witness :
    infer_chain (fun _ => some "Latvia") (fun _ => some "Latvia")
      ⟨some " India ", "Tele2 Latvia", "GBR001"⟩ = some (pyStrip " India ") :=
  resolution_stage_order.1 (fun _ => some "Latvia") (fun _ => some "Latvia")
    " India " "Tele2 Latvia" "GBR001" (by decide)

/-! ## Claim C4: idempotence of the resolution chain -/

theorem partner_rule_trimmed {x : Option String} {a : String}
    (h : infer_country_from_partner x = some a) : pyStrip a = a := by
  cases x with
  | none => cases h
  | some s =>
    simp only [infer_country_from_partner] at h
    rcases Option.map_eq_some'.mp h with ⟨kv, hkv, hkva⟩
    have hmem := List.mem_of_find?_eq_some hkv
    have hall : ∀ q ∈ partnerRules, pyStrip q.2 = q.2 := by decide
    rw [← hkva]
    exact hall _ hmem

theorem prefix_rule_trimmed {x : Option String} {c : String}
    (h : infer_country_from_network_id x = some c) : pyStrip c = c ∧ c ≠ "" := by
  cases x with
  | none => cases h
  | some s =>
    have h' : List.lookup (⟨(pyUpper (pyStrip s)).data.take 3⟩ : String) prefixRules
        = some c := h
    have hmem := lookup_mem h'
    have hall : ∀ q ∈ prefixRules, pyStrip q.2 = q.2 ∧ q.2 ≠ "" := by decide
    exact hall _ hmem

theorem detect_trimmed {lookup : String → Option String}
    (hlk : ∀ k v, lookup k = some v → pyStrip v = v)
    {x : Option String} {b : String}
    (h : detect_country_from_partner_text lookup x = some b) : pyStrip b = b := by
  cases x with
  | none => cases h
  | some s =>
    simp only [detect_country_from_partner_text] at h
    by_cases ht : pyStrip (subNonAlpha s) = ""
    · rw [if_pos ht] at h; cases h
    · rw [if_neg ht] at h
      obtain ⟨n, hn, h2⟩ := List.exists_of_findSome?_eq_some h
      obtain ⟨i, hi, h3⟩ := List.exists_of_findSome?_eq_some h2
      exact hlk _ b h3

theorem tail_chain_trimmed {lookup : String → Option String}
    (hlk : ∀ k v, lookup k = some v → pyStrip v = v) {p n v : String}
    (h : pyFirst (detect_country_from_partner_text lookup (some p))
      (fun _ => infer_country_from_network_id (some n)) = some v) : pyStrip v = v := by
  cases hB : detect_country_from_partner_text lookup (some p) with
  | some b =>
    rw [hB, pyFirst_some] at h
    by_cases hb : b ≠ ""
    · rw [if_pos hb] at h
      rw [← Option.some.inj h]
      exact detect_trimmed hlk hB
    · rw [if_neg hb] at h
      exact (prefix_rule_trimmed h).1
  | none =>
    rw [hB, pyFirst_none] at h
    exact (prefix_rule_trimmed h).1

/-- Every country the fallback stages can return is already trimmed
(partner-table and lookup values by hypothesis, rule and prefix table
values by inspection). -/
theorem restChain_trimmed {pm lookup : String → Option String}
    (hpm : ∀ k v, pm k = some v → pyStrip v = v)
    (hlk : ∀ k v, lookup k = some v → pyStrip v = v)
    {p n v : String} (h : restChain pm lookup p n = some v) : pyStrip v = v := by
  simp only [restChain] at h
  by_cases hcpm : (if pyStrip p ≠ "" then (pm (pyLower (pyStrip p))).getD "" else "") ≠ ""
  · rw [if_pos hcpm] at h
    have hv : (if pyStrip p ≠ "" then (pm (pyLower (pyStrip p))).getD "" else "") = v :=
      Option.some.inj h
    by_cases hp : pyStrip p ≠ ""
    · rw [if_pos hp] at hv
      cases hg : pm (pyLower (pyStrip p)) with
      | none =>
        exfalso
        apply hcpm
        rw [if_pos hp, hg]
        rfl
      | some w =>
        rw [hg] at hv
        simp only [Option.getD_some] at hv
        rw [← hv]
        exact hpm _ w hg
    · exfalso
      apply hcpm
      rw [if_neg hp]
  · rw [if_neg hcpm] at h
    cases hA : infer_country_from_partner (some (pyStrip p)) with
    | some a =>
      rw [hA, pyFirst_some] at h
      by_cases ha : a ≠ ""
      · rw [if_pos ha] at h
        rw [← Option.some.inj h]
        exact partner_rule_trimmed hA
      · rw [if_neg ha] at h
        exact tail_chain_trimmed hlk h
    | none =>
      rw [hA, pyFirst_none] at h
      exact tail_chain_trimmed hlk h

theorem infer_chain_some_cases (pm lookup : String → Option String) (row : RowJoin)
    (v : String) (hr : infer_chain pm lookup row = some v) :
    (∃ c, row.country = some c ∧ pyStrip c ≠ "" ∧ v = pyStrip c) ∨
    restChain pm lookup row.partnerName row.networkId = some v := by
  obtain ⟨rc, rp, rn⟩ := row
  cases rc with
  | none =>
    simp only [infer_chain] at hr
    exact Or.inr hr
  | some c =>
    simp only [infer_chain] at hr
    by_cases h : pyStrip c ≠ ""
    · rw [if_pos h] at hr
      exact Or.inl ⟨c, rfl, h, (Option.some.inj hr).symm⟩
    · rw [if_neg h] at hr
      exact Or.inr hr

theorem infer_chain_none_rest (pm lookup : String → Option String) (row : RowJoin)
    (hr : infer_chain pm lookup row = none) :
    restChain pm lookup row.partnerName row.networkId = none := by
  obtain ⟨rc, rp, rn⟩ := row
  cases rc with
  | none =>
    simp only [infer_chain] at hr
    exact hr
  | some c =>
    simp only [infer_chain] at hr
    by_cases h : pyStrip c ≠ ""
    · rw [if_pos h] at hr; cases hr
    · rw [if_neg h] at hr; exact hr

/-- C4: resolution is idempotent — feeding the country produced by a
first resolution back in as the stage-0 direct-join country and resolving
again reproduces the first result.  The hypotheses state that the two
collaborator tables store trimmed values, which holds for the program:
`pm_dict` is built from the partner table whose countries are trimmed at
load (app.py line 320), and the fuzzy lookup returns `pycountry` canonical
names. -/
theorem resolution_idempotent (pm lookup : String → Option String)
    (hpm : ∀ k v, pm k = some v → pyStrip v = v)
    (hlk : ∀ k v, lookup k = some v → pyStrip v = v) (row : RowJoin) :
    infer_chain pm lookup { row with country := infer_chain pm lookup row }
      = infer_chain pm lookup row := by
  cases hr : infer_chain pm lookup row with
  | none =>
    exact infer_chain_none_rest pm lookup row hr
  | some v =>
    rcases infer_chain_some_cases pm lookup row v hr with ⟨c, hc, hcs, hvc⟩ | hrest
    · have hv : pyStrip v = v := by rw [hvc, pyStrip_idem]
      have hvne : pyStrip v ≠ "" := by
        rw [hv, hvc]
        exact hcs
      have hred : infer_chain pm lookup { row with country := some v } =
          if pyStrip v ≠ "" then some (pyStrip v)
          else restChain pm lookup row.partnerName row.networkId := rfl
      rw [hred, if_pos hvne, hv]
    · have hv : pyStrip v = v := restChain_trimmed hpm hlk hrest
      have hred : infer_chain pm lookup { row with country := some v } =
          if pyStrip v ≠ "" then some (pyStrip v)
          else restChain pm lookup row.partnerName row.networkId := rfl
      by_cases hvne : pyStrip v ≠ ""
      · rw [hred, if_pos hvne, hv]
      · rw [hred, if_neg hvne]
        exact hrest

theorem resolution_idempotent_witness :
    infer_chain (fun _ => none) (fun _ => none)
      { (⟨some " India ", "x", "y"⟩ : RowJoin) with
        country := infer_chain (fun _ => none) (fun _ => none) ⟨some " India ", "x", "y"⟩ }
      = infer_chain (fun _ => none) (fun _ => none) ⟨some " India ", "x", "y"⟩ :=
  resolution_idempotent (fun _ => none) (fun _ => none)
    (fun _ _ h => nomatch h) (fun _ _ h => nomatch h) ⟨some " India ", "x", "y"⟩

/-! ## Claim C8: empty workbooks are fine, an empty batch is fatal -/

/-- C8: a workbook whose sheets all yield no records parses to the empty
record set (an ordinary value, not an error), but when the whole uploaded
batch yields zero records the pipeline reports the fatal
`"No usable data found"` failure instead of silently emitting an empty
result — `raw_all` never returns `ok []`. -/
theorem no_usable_data_fatal :
    (∀ wb : Workbook, (∀ sf ∈ wb.sheets,
        sheetRecords (safe_year_from_filename wb.filename) sf.1 sf.2 = []) →
      parse_workbook wb = []) ∧
    (∀ files : List Workbook, (∀ wb ∈ files, parse_workbook wb = []) →
      raw_all files = .error "No usable data found. Check sheet names/headers.") ∧
    (∀ files recs, raw_all files = .ok recs → recs ≠ []) := by
  refine ⟨?_, ?_, ?_⟩
  · intro wb h
    unfold parse_workbook
    rw [List.flatten_eq_nil_iff]
    intro l hl
    rcases List.mem_map.mp hl with ⟨sf, hsf, hsfl⟩
    rw [← hsfl]
    exact h sf hsf
  · intro files h
    have hd : allRecords files = [] := by
      unfold allRecords
      rw [List.flatten_eq_nil_iff]
      intro l hl
      rcases List.mem_map.mp hl with ⟨wb, hwb, hwbl⟩
      rw [← hwbl, h wb hwb]
      rfl
    unfold raw_all
    rw [hd]
    rfl
  · intro files recs h
    unfold raw_all at h
    by_cases hd : (allRecords files).isEmpty = true
    · rw [if_pos hd] at h
      cases h
    · rw [if_neg hd] at h
      have hrec : allRecords files = recs := Except.ok.inj h
      rw [← hrec]
      intro hnil
      exact hd (List.isEmpty_iff.mpr hnil)

theorem no_usable_data_fatal_witness :
    raw_all [⟨"r.xlsx", [("Total",
        ⟨["Partner Name", "Network ID"], [[.text "Op", .text "IND01"]]⟩)]⟩]
      = .error "No usable data found. Check sheet names/headers." :=
  no_usable_data_fatal.2.1
    [⟨"r.xlsx", [("Total",
        ⟨["Partner Name", "Network ID"], [[.text "Op", .text "IND01"]]⟩)]⟩]
    (by decide)

/-! ## Claim C6: sheet acceptance is decided by the identifier columns -/

theorem mem_assignCol (x : String) (l : List String) (n : String) :
    x ∈ assignCol l n ↔ x ∈ l ∨ x = n := by
  unfold assignCol
  by_cases hn : n ∈ l
  · rw [if_pos hn]
    constructor
    · exact Or.inl
    · rintro (h | h)
      · exact h
      · rw [h]; exact hn
  · rw [if_neg hn]
    rw [List.mem_append, List.mem_singleton]

theorem rename_eq_partner_iff (h0 : String) :
    renameHeader h0 = "Partner Name" ↔ classifyHeader h0 = .partner := by
  constructor
  · intro h
    cases hcl : classifyHeader h0 with
    | partner => rfl
    | network => simp only [renameHeader, hcl] at h; exact absurd h (by decide)
    | vol => simp only [renameHeader, hcl] at h; rw [h] at hcl; exact absurd hcl (by decide)
    | dur => simp only [renameHeader, hcl] at h; rw [h] at hcl; exact absurd hcl (by decide)
    | gprs => simp only [renameHeader, hcl] at h; rw [h] at hcl; exact absurd hcl (by decide)
    | voice => simp only [renameHeader, hcl] at h; rw [h] at hcl; exact absurd hcl (by decide)
    | daily => simp only [renameHeader, hcl] at h; rw [h] at hcl; exact absurd hcl (by decide)
    | other => simp only [renameHeader, hcl] at h; rw [h] at hcl; exact absurd hcl (by decide)
  · intro h
    simp only [renameHeader, h]

theorem rename_eq_network_iff (h0 : String) :
    renameHeader h0 = "Network ID" ↔ classifyHeader h0 = .network := by
  constructor
  · intro h
    cases hcl : classifyHeader h0 with
    | network => rfl
    | partner => simp only [renameHeader, hcl] at h; exact absurd h (by decide)
    | vol => simp only [renameHeader, hcl] at h; rw [h] at hcl; exact absurd hcl (by decide)
    | dur => simp only [renameHeader, hcl] at h; rw [h] at hcl; exact absurd hcl (by decide)
    | gprs => simp only [renameHeader, hcl] at h; rw [h] at hcl; exact absurd hcl (by decide)
    | voice => simp only [renameHeader, hcl] at h; rw [h] at hcl; exact absurd hcl (by decide)
    | daily => simp only [renameHeader, hcl] at h; rw [h] at hcl; exact absurd hcl (by decide)
    | other => simp only [renameHeader, hcl] at h; rw [h] at hcl; exact absurd hcl (by decide)
  · intro h
    simp only [renameHeader, h]

theorem partner_mem_standardized (hs : List String) :
    "Partner Name" ∈ standardizedHeaders hs ↔
      ∃ h ∈ hs, classifyHeader (cleanHeader h) = .partner := by
  unfold standardizedHeaders
  rw [mem_assignCol, mem_assignCol, mem_assignCol, mem_assignCol]
  constructor
  · intro h
    rcases h with (((h | h) | h) | h) | h
    · rcases List.mem_map.mp h with ⟨h1, hmem, hren⟩
      rcases List.mem_map.mp hmem with ⟨h2, hmem2, hcl⟩
      refine ⟨h2, hmem2, ?_⟩
      rw [hcl]
      exact (rename_eq_partner_iff h1).mp hren
    · exact absurd h (by decide)
    · exact absurd h (by decide)
    · exact absurd h (by decide)
    · exact absurd h (by decide)
  · rintro ⟨h0, hmem, hcl⟩
    refine Or.inl (Or.inl (Or.inl (Or.inl ?_)))
    refine List.mem_map.mpr ⟨cleanHeader h0, List.mem_map.mpr ⟨h0, hmem, rfl⟩, ?_⟩
    exact (rename_eq_partner_iff (cleanHeader h0)).mpr hcl

theorem network_mem_standardized (hs : List String) :
    "Network ID" ∈ standardizedHeaders hs ↔
      ∃ h ∈ hs, classifyHeader (cleanHeader h) = .network := by
  unfold standardizedHeaders
  rw [mem_assignCol, mem_assignCol, mem_assignCol, mem_assignCol]
  constructor
  · intro h
    rcases h with (((h | h) | h) | h) | h
    · rcases List.mem_map.mp h with ⟨h1, hmem, hren⟩
      rcases List.mem_map.mp hmem with ⟨h2, hmem2, hcl⟩
      refine ⟨h2, hmem2, ?_⟩
      rw [hcl]
      exact (rename_eq_network_iff h1).mp hren
    · exact absurd h (by decide)
    · exact absurd h (by decide)
    · exact absurd h (by decide)
    · exact absurd h (by decide)
  · rintro ⟨h0, hmem, hcl⟩
    refine Or.inl (Or.inl (Or.inl (Or.inl ?_)))
    refine List.mem_map.mpr ⟨cleanHeader h0, List.mem_map.mpr ⟨h0, hmem, rfl⟩, ?_⟩
    exact (rename_eq_network_iff (cleanHeader h0)).mpr hcl

theorem numeric_cols_mem_standardized (hs : List String) :
    "Total Volume(KB)" ∈ standardizedHeaders hs ∧
    "Total Duration(min)" ∈ standardizedHeaders hs ∧
    "Total GPRS Amount(USD)" ∈ standardizedHeaders hs ∧
    "Total Voice Amount(USD)" ∈ standardizedHeaders hs := by
  unfold standardizedHeaders
  refine ⟨?_, ?_, ?_, ?_⟩
  · exact (mem_assignCol _ _ _).mpr (Or.inl ((mem_assignCol _ _ _).mpr (Or.inl
      ((mem_assignCol _ _ _).mpr (Or.inl ((mem_assignCol _ _ _).mpr (Or.inr rfl)))))))
  · exact (mem_assignCol _ _ _).mpr (Or.inl ((mem_assignCol _ _ _).mpr (Or.inl
      ((mem_assignCol _ _ _).mpr (Or.inr rfl)))))
  · exact (mem_assignCol _ _ _).mpr (Or.inl ((mem_assignCol _ _ _).mpr (Or.inr rfl)))
  · exact (mem_assignCol _ _ _).mpr (Or.inr rfl)

theorem sheetLacksRequired_false_iff (hs : List String) :
    sheetLacksRequired hs = false ↔ ∀ c ∈ neededCols, c ∈ standardizedHeaders hs := by
  unfold sheetLacksRequired
  rw [List.any_eq_false]
  constructor
  · intro h c hc
    have hcc := h c hc
    rw [Bool.not_eq_true', Bool.not_eq_false] at hcc
    exact List.elem_iff.mp hcc
  · intro h c hc
    rw [Bool.not_eq_true', Bool.not_eq_false]
    exact List.elem_iff.mpr (h c hc)

/-- C6: a sheet is skipped by the `needed` test iff, after column
normalization, it lacks `Partner Name` or `Network ID`; the four numeric
columns are always supplied by normalization (defaulting to all-zero
columns when nothing matches, cf. C5/C3), so their absence from the
source never rejects a sheet. -/
theorem sheet_acceptance_by_identifiers (hs : List String) :
    (∀ c ∈ ["Total Volume(KB)", "Total Duration(min)", "Total GPRS Amount(USD)",
      "Total Voice Amount(USD)"], c ∈ standardizedHeaders hs) ∧
    (sheetLacksRequired hs = false ↔
      ((∃ h ∈ hs, classifyHeader (cleanHeader h) = .partner) ∧
       (∃ h ∈ hs, classifyHeader (cleanHeader h) = .network))) := by
  obtain ⟨hv, hd, hg, hvc⟩ := numeric_cols_mem_standardized hs
  constructor
  · intro c hc
    fin_cases hc
    · exact hv
    · exact hd
    · exact hg
    · exact hvc
  · rw [sheetLacksRequired_false_iff]
    constructor
    · intro h
      refine ⟨(partner_mem_standardized hs).mp ?_, (network_mem_standardized hs).mp ?_⟩
      · exact h "Partner Name" (by decide)
      · exact h "Network ID" (by decide)
    · rintro ⟨hp, hn⟩ c hc
      fin_cases hc
      · exact (partner_mem_standardized hs).mpr hp
      · exact (network_mem_standardized hs).mpr hn
      · exact hv
      · exact hd
      · exact hg
      · exact hvc

theorem sheet_acceptance_by_identifiers_witness :
    "Total Volume(KB)" ∈ standardizedHeaders ["PartnerName", "NetworkID"] ∧
    sheetLacksRequired ["Partner Name", "Network ID"] = false :=
  ⟨(sheet_acceptance_by_identifiers ["PartnerName", "NetworkID"]).1
      "Total Volume(KB)" (by decide),
   (sheet_acceptance_by_identifiers ["Partner Name", "Network ID"]).2.mpr
      ⟨⟨"Partner Name", by decide, by decide⟩, ⟨"Network ID", by decide, by decide⟩⟩⟩

/-! ## Claim C7: fuzzy country extraction scans spans longest-first,
left to right -/

theorem findSome?_flatMap {α β γ : Type} (l : List α) (g : α → List β) (f : β → Option γ) :
    (l.flatMap g).findSome? f = l.findSome? (fun a => (g a).findSome? f) := by
  induction l with
  | nil => rfl
  | cons a as ih =>
    rw [List.flatMap_cons, List.findSome?_append, ih, List.findSome?_cons]
    cases h : (g a).findSome? f with
    | some b => rfl
    | none => rfl

/-- C7: `detect_country_from_partner_text` returns nothing for a missing
partner name, and otherwise equals the first resolving phrase of the
span-candidate list built exactly as the spec orders it: spans of length
4, then 3, then 2, then 1, each length left to right, over the retained
(length ≥ 4) words.  In particular, when every word is shorter than 4
characters the candidate list is empty and nothing is returned. -/
theorem fuzzy_scan_order :
    (∀ lookup, detect_country_from_partner_text lookup none = none) ∧
    (∀ lookup s, detect_country_from_partner_text lookup (some s) =
      (spanPhrases (partnerWords s)).findSome? lookup) := by
  refine ⟨fun lookup => rfl, ?_⟩
  intro lookup s
  have hdet : detect_country_from_partner_text lookup (some s) =
      if pyStrip (subNonAlpha s) = "" then none
      else [4, 3, 2, 1].findSome? (fun n =>
        (List.range ((partnerWords s).length + 1 - n)).findSome? (fun i =>
          lookup (joinSpace (((partnerWords s).drop i).take n)))) := rfl
  rw [hdet]
  by_cases ht : pyStrip (subNonAlpha s) = ""
  · have hw : partnerWords s = [] := by
      unfold partnerWords
      rw [ht]
      rfl
    rw [if_pos ht, hw]
    rfl
  · rw [if_neg ht]
    unfold spanPhrases
    rw [findSome?_flatMap]
    congr 1
    funext n
    rw [List.findSome?_map]
    rfl

/-! ## Claim C5: the daily-volume fallback sum -/

theorem headerClass_beq_iff (x y : HeaderClass) : (x == y) = true ↔ x = y := by
  cases x <;> cases y <;> decide

theorem dropSeq_some {pat l r : List Char} (h : dropSeq pat l = some r) :
    l = pat ++ r := by
  induction pat generalizing l with
  | nil => cases h; rfl
  | cons a as ih =>
    cases l with
    | nil => cases h
    | cons b bs =>
      by_cases hab : a = b
      · subst hab
        simp only [dropSeq, if_pos rfl] at h
        rw [List.cons_append, ih h]
      · simp only [dropSeq, if_neg hab] at h
        cases h

theorem dailyTail_chars {t : List Char} (h : dailyTail t = true) :
    ∀ c ∈ t, c = '.' ∨ c.isDigit = true := by
  intro c hc
  cases t with
  | nil => cases hc
  | cons d ds =>
    simp only [dailyTail, Bool.and_eq_true, decide_eq_true_eq, List.all_eq_true] at h
    rcases List.mem_cons.mp hc with hc | hc
    · subst hc
      exact Or.inl h.1.1
    · exact Or.inr (h.2 c hc)

theorem isDaily_structure {s : String} (h : isDailyVolHeader s = true) :
    ∃ sp t, (pyLower s).data = "volume".data ++ (sp ++ ("(kb)".data ++ t)) ∧
      (∀ c ∈ sp, isPySpace c = true) ∧ dailyTail t = true := by
  unfold isDailyVolHeader at h
  cases h1 : dropSeq "volume".data (pyLower s).data with
  | none =>
    simp only [h1] at h
    exact Bool.noConfusion h
  | some r =>
    simp only [h1] at h
    cases h2 : dropSeq "(kb)".data (r.dropWhile isPySpace) with
    | none =>
      simp only [h2] at h
      exact Bool.noConfusion h
    | some t =>
      simp only [h2] at h
      refine ⟨r.takeWhile isPySpace, t, ?_, ?_, h⟩
      · rw [dropSeq_some h1]
        congr 1
        have hr : r = r.takeWhile isPySpace ++ r.dropWhile isPySpace :=
          (List.takeWhile_append_dropWhile isPySpace r).symm
        conv_lhs => rw [hr]
        congr 1
        exact dropSeq_some h2
      · intro c hc
        exact List.mem_takeWhile_imp hc

theorem normH_data (s : String) :
    (normH s).data = ((pyLower s).data).filter (fun c => !isPySpace c) := by
  show ((pyLower (pyStrip s)).data).filter (fun c => !isPySpace c) = _
  have h1 : (pyLower (pyStrip s)).data = (stripChars s.data).map lowerChar := rfl
  have h2 : (pyLower s).data = s.data.map lowerChar := rfl
  rw [h1, h2]
  obtain ⟨pre, suf, hl, hpre, hsuf⟩ := stripChars_decomp s.data
  conv_rhs => rw [hl]
  rw [List.map_append, List.map_append, List.filter_append, List.filter_append]
  have hpre' : (pre.map lowerChar).filter (fun c => !isPySpace c) = [] := by
    rw [List.filter_eq_nil_iff]
    intro c hc
    rcases List.mem_map.mp hc with ⟨d, hd, hdc⟩
    rw [← hdc, isPySpace_lowerChar d (hpre d hd), hpre d hd]
    simp
  have hsuf' : (suf.map lowerChar).filter (fun c => !isPySpace c) = [] := by
    rw [List.filter_eq_nil_iff]
    intro c hc
    rcases List.mem_map.mp hc with ⟨d, hd, hdc⟩
    rw [← hdc, isPySpace_lowerChar d (hsuf d hd), hsuf d hd]
    simp
  rw [hpre', hsuf']
  simp

theorem normH_of_daily {s : String} (h : isDailyVolHeader s = true) :
    ∃ t, (normH s).data = "volume(kb)".data ++ t ∧
      (∀ c ∈ t, c = '.' ∨ c.isDigit = true) := by
  obtain ⟨sp, t, hdata, hsp, htail⟩ := isDaily_structure h
  refine ⟨t, ?_, dailyTail_chars htail⟩
  rw [normH_data, hdata, List.filter_append, List.filter_append, List.filter_append]
  have hv : ("volume".data).filter (fun c => !isPySpace c) = "volume".data := by decide
  have hkb : ("(kb)".data).filter (fun c => !isPySpace c) = "(kb)".data := by decide
  have hsp' : sp.filter (fun c => !isPySpace c) = [] := by
    rw [List.filter_eq_nil_iff]
    intro c hc
    rw [hsp c hc]
    simp
  have ht' : t.filter (fun c => !isPySpace c) = t := by
    apply List.filter_eq_self.mpr
    intro c hc
    rcases dailyTail_chars htail c hc with hc' | hc'
    · rw [hc']
      decide
    · rw [isDigit_not_isPySpace c hc']
      simp
  rw [hv, hkb, hsp', ht', List.nil_append, ← List.append_assoc]
  congr 1

theorem t_p_not_mem_normH_daily {s : String} (h : isDailyVolHeader s = true) :
    't' ∉ (normH s).data ∧ 'p' ∉ (normH s).data := by
  obtain ⟨t, hdata, hchars⟩ := normH_of_daily h
  rw [hdata]
  constructor
  · intro hm
    rcases List.mem_append.mp hm with hm | hm
    · exact absurd hm (by decide)
    · rcases hchars _ hm with hc | hc
      · exact absurd hc (by decide)
      · exact absurd hc (by decide)
  · intro hm
    rcases List.mem_append.mp hm with hm | hm
    · exact absurd hm (by decide)
    · rcases hchars _ hm with hc | hc
      · exact absurd hc (by decide)
      · exact absurd hc (by decide)

/-- A header matching the daily-volume pattern can satisfy none of the
earlier classification conditions (its normalized form has no `t` or `p`),
so the header loop files it under `daily_volume_cols`. -/
theorem classify_daily {s : String} (h : isDailyVolHeader s = true) :
    classifyHeader s = .daily := by
  obtain ⟨hT, hP⟩ := t_p_not_mem_normH_daily h
  have hnt : ∀ pat : String, 't' ∈ pat.data → strContains (normH s) pat = false := by
    intro pat hmem
    by_contra hc
    rw [Bool.not_eq_false] at hc
    exact hT (mem_of_hasSeq hc 't' hmem)
  have hnp : ∀ pat : String, 'p' ∈ pat.data → strContains (normH s) pat = false := by
    intro pat hmem
    by_contra hc
    rw [Bool.not_eq_false] at hc
    exact hP (mem_of_hasSeq hc 'p' hmem)
  have hne1 : normH s ≠ "totalvolume(kb)" := by
    intro he
    apply hT
    rw [he]
    decide
  have hne2 : normH s ≠ "totalduration(min)" := by
    intro he
    apply hT
    rw [he]
    decide
  have hvol : volCondition (normH s) = false := by
    simp only [volCondition, hnt "total" (by decide), Bool.false_and, Bool.or_false,
      decide_eq_false hne1]
  have hdur : durCondition (normH s) = false := by
    simp only [durCondition, hnt "total" (by decide), hnt "totalduration" (by decide),
      Bool.false_and, Bool.or_false, Bool.false_or, decide_eq_false hne2]
  have hgprs : gprsCondition (normH s) = false := by
    simp only [gprsCondition, hnt "totalgprs" (by decide), hnt "totalgprsamount" (by decide),
      Bool.false_and, Bool.or_false]
  have hvoice : voiceCondition (normH s) = false := by
    simp only [voiceCondition, hnt "totalvoice" (by decide), hnt "totalvoiceamount" (by decide),
      Bool.false_and, Bool.or_false]
  simp [classifyHeader, hnp "partnername" (by decide), hnt "networkid" (by decide),
    hvol, hdur, hgprs, hvoice, h]

theorem classify_eq_vol {h0 : String} (hcl : classifyHeader h0 = .vol) :
    volCondition (normH h0) = true := by
  simp only [classifyHeader] at hcl
  split_ifs at hcl <;> first | assumption | exact absurd hcl (by decide)

theorem classify_eq_daily {h0 : String} (hcl : classifyHeader h0 = .daily) :
    isDailyVolHeader h0 = true := by
  simp only [classifyHeader] at hcl
  split_ifs at hcl <;> first | assumption | exact absurd hcl (by decide)

/-- C5: when no header satisfies the single total-volume condition, the
normalized `Total Volume(KB)` of every row is the row-wise sum of the
columns whose header matches the daily pattern `Volume (KB)[.N]`
(non-numeric cells coercing to 0 inside `coerceCell`); with no daily
column either, it is 0. -/
theorem volume_fallback (hs : List String) (row : List Cell)
    (hnovol : ∀ h ∈ hs, volCondition (normH (cleanHeader h)) = false) :
    totalVolumeOfRow hs row =
      (((List.range hs.length).filter
          (fun i => isDailyVolHeader (cleanHeader (hs.getD i "")))).map
        (fun i => coerceCell (row.getD i .blank))).sum ∧
    ((∀ h ∈ hs, isDailyVolHeader (cleanHeader h) = false) →
      totalVolumeOfRow hs row = 0) := by
  have hgetD : ∀ i ∈ List.range hs.length, hs.getD i "" ∈ hs := by
    intro i hi
    rw [List.mem_range] at hi
    rw [List.getD_eq_getElem hs "" hi]
    exact List.getElem_mem hi
  have hvolidx : lastIdxWhere hs (fun h => classifyHeader (cleanHeader h) == .vol) = none := by
    unfold lastIdxWhere
    rw [List.getLast?_eq_none_iff, List.filter_eq_nil_iff]
    intro i hi hcl
    rw [headerClass_beq_iff] at hcl
    have hcond := classify_eq_vol hcl
    rw [hnovol _ (hgetD i hi)] at hcond
    cases hcond
  have hdaily : dailyIdxs hs = (List.range hs.length).filter
      (fun i => isDailyVolHeader (cleanHeader (hs.getD i ""))) := by
    unfold dailyIdxs
    refine List.filter_congr ?_
    intro i hi
    cases hid : isDailyVolHeader (cleanHeader (hs.getD i "")) with
    | true => exact (headerClass_beq_iff _ _).mpr (classify_daily hid)
    | false =>
      cases hbe : (classifyHeader (cleanHeader (hs.getD i "")) == HeaderClass.daily) with
      | false => rfl
      | true =>
        rw [headerClass_beq_iff] at hbe
        rw [classify_eq_daily hbe] at hid
        cases hid
  constructor
  · simp only [totalVolumeOfRow, hvolidx]
    rw [hdaily]
    by_cases he : ((List.range hs.length).filter
        (fun i => isDailyVolHeader (cleanHeader (hs.getD i "")))).isEmpty = true
    · rw [if_pos he, List.isEmpty_iff.mp he]
      rfl
    · rw [if_neg he]
  · intro hnod
    have hfil : (List.range hs.length).filter
        (fun i => isDailyVolHeader (cleanHeader (hs.getD i ""))) = [] := by
      rw [List.filter_eq_nil_iff]
      intro i hi hcontra
      rw [hnod _ (hgetD i hi)] at hcontra
      cases hcontra
    simp only [totalVolumeOfRow, hvolidx]
    rw [hdaily, hfil]
    rfl

theorem volume_fallback_witness :
    totalVolumeOfRow ["Partner Name", "Network ID", "Volume (KB)", "Volume (KB).1"]
      [.text "Op", .text "IND1", .num 3, .num 4] =
      (((List.range (["Partner Name", "Network ID", "Volume (KB)",
          "Volume (KB).1"] : List String).length).filter
          (fun i => isDailyVolHeader (cleanHeader ((["Partner Name", "Network ID",
            "Volume (KB)", "Volume (KB).1"] : List String).getD i "")))).map
        (fun i => coerceCell (([Cell.text "Op", Cell.text "IND1", Cell.num 3,
          Cell.num 4]).getD i Cell.blank))).sum :=
  (volume_fallback ["Partner Name", "Network ID", "Volume (KB)", "Volume (KB).1"]
    [.text "Op", .text "IND1", .num 3, .num 4] (by decide)).1

/-! ## Claim C3: numeric fields — coercion to 0 holds, non-negativity
does not (a negative numeric cell passes through) -/

theorem coerce_getD_nonneg {row : List Cell}
    (hrow : ∀ cell ∈ row, 0 ≤ coerceCell cell) (i : Nat) :
    0 ≤ coerceCell (row.getD i .blank) := by
  by_cases hi : i < row.length
  · rw [List.getD_eq_getElem row .blank hi]
    exact hrow _ (List.getElem_mem hi)
  · rw [List.getD_eq_default row .blank (le_of_not_lt hi)]
    exact le_refl 0

theorem coerce_getD_zero {row : List Cell}
    (hrow : ∀ cell ∈ row, ∀ q, cell ≠ Cell.num q) (i : Nat) :
    coerceCell (row.getD i .blank) = 0 := by
  by_cases hi : i < row.length
  · rw [List.getD_eq_getElem row .blank hi]
    have hmem := List.getElem_mem hi
    cases hc : row[i] with
    | num q => exact absurd hc (hrow _ hmem q)
    | text s => rfl
    | blank => rfl
  · rw [List.getD_eq_default row .blank (le_of_not_lt hi)]
    rfl

theorem totalVolumeOfRow_nonneg (hs : List String) {row : List Cell}
    (hrow : ∀ cell ∈ row, 0 ≤ coerceCell cell) :
    0 ≤ totalVolumeOfRow hs row := by
  unfold totalVolumeOfRow
  cases hidx : lastIdxWhere hs (fun h => classifyHeader (cleanHeader h) == .vol) with
  | some i => exact coerce_getD_nonneg hrow i
  | none =>
    by_cases he : (dailyIdxs hs).isEmpty = true
    · rw [if_pos he]
    · rw [if_neg he]
      refine List.sum_nonneg ?_
      intro x hx
      rcases List.mem_map.mp hx with ⟨i, hi, hxi⟩
      rw [← hxi]
      exact coerce_getD_nonneg hrow i

theorem singleColVal_nonneg (hs : List String) {row : List Cell}
    (hrow : ∀ cell ∈ row, 0 ≤ coerceCell cell) (cls : HeaderClass) :
    0 ≤ singleColVal hs row cls := by
  unfold singleColVal
  cases hidx : lastIdxWhere hs (fun h => classifyHeader (cleanHeader h) == cls) with
  | some i => exact coerce_getD_nonneg hrow i
  | none => exact le_refl 0

theorem totalVolumeOfRow_zero (hs : List String) {row : List Cell}
    (hrow : ∀ cell ∈ row, ∀ q, cell ≠ Cell.num q) :
    totalVolumeOfRow hs row = 0 := by
  unfold totalVolumeOfRow
  cases hidx : lastIdxWhere hs (fun h => classifyHeader (cleanHeader h) == .vol) with
  | some i => exact coerce_getD_zero hrow i
  | none =>
    by_cases he : (dailyIdxs hs).isEmpty = true
    · rw [if_pos he]
    · rw [if_neg he]
      refine List.sum_eq_zero ?_
      intro x hx
      rcases List.mem_map.mp hx with ⟨i, hi, hxi⟩
      rw [← hxi]
      exact coerce_getD_zero hrow i

theorem singleColVal_zero (hs : List String) {row : List Cell}
    (hrow : ∀ cell ∈ row, ∀ q, cell ≠ Cell.num q) (cls : HeaderClass) :
    singleColVal hs row cls = 0 := by
  unfold singleColVal
  cases hidx : lastIdxWhere hs (fun h => classifyHeader (cleanHeader h) == cls) with
  | some i => exact coerce_getD_zero hrow i
  | none => rfl

theorem mem_sheetRecords {year : Option Nat} {name : String} {f : Frame}
    {r : UsageRecord} (hr : r ∈ sheetRecords year name f) :
    ∃ row ∈ f.rows, r = mkRecord f.headers year name row := by
  unfold sheetRecords at hr
  by_cases h1 : (["total", "sheet1"].contains (pyLower (pyStrip name))) = true
  · rw [if_pos h1] at hr
    cases hr
  · rw [if_neg h1] at hr
    by_cases h2 : sheetLacksRequired f.headers = true
    · rw [if_pos h2] at hr
      cases hr
    · rw [if_neg h2] at hr
      rcases List.mem_map.mp hr with ⟨row, hrow, hmk⟩
      exact ⟨row, (List.mem_filter.mp hrow).1, hmk.symm⟩

/-- C3 as stated is false on the code: a numeric cell holding a negative
number is parsed by `pd.to_numeric` (it is not "unparsable"), is not
clamped anywhere, and reaches the emitted record as a negative
`Total Volume(KB)`. -/
theorem numeric_never_negative_cex :
    (parse_workbook ⟨"Report_2020.xlsx",
      [("Jan", ⟨["Partner Name", "Network ID", "Total Volume(KB)"],
        [[.text "Op", .text "IND01", .num (-5)]]⟩)]⟩).map UsageRecord.totalVolumeKb
      = [-5] ∧ ((-5 : Rat) < 0) := by
  constructor
  · decide
  · decide

/-- C3 (amended): the four numeric fields are never missing — an absent
(`NaN`) or unparsable cell coerces to 0 in every numeric field, a row of
only such cells yields all-zero fields — and every emitted record's
numeric fields are non-negative provided every input cell of the workbook
coerces to a non-negative value, i.e. every numeric cell is non-negative
(a negative numeric cell passes through to the record, cf. the
counterexample). -/
theorem numeric_fields_coerced :
    coerceCell .blank = 0 ∧
    (∀ s, coerceCell (.text s) = 0) ∧
    (∀ q, coerceCell (.num q) = q) ∧
    (∀ hs year mon row, (∀ cell ∈ row, ∀ q, cell ≠ Cell.num q) →
      (mkRecord hs year mon row).totalVolumeKb = 0 ∧
      (mkRecord hs year mon row).totalDurationMin = 0 ∧
      (mkRecord hs year mon row).totalGprsAmountUsd = 0 ∧
      (mkRecord hs year mon row).totalVoiceAmountUsd = 0) ∧
    (∀ wb : Workbook,
      (∀ sf ∈ wb.sheets, ∀ row ∈ sf.2.rows, ∀ cell ∈ row, 0 ≤ coerceCell cell) →
      ∀ r ∈ parse_workbook wb, 0 ≤ r.totalVolumeKb ∧ 0 ≤ r.totalDurationMin ∧
        0 ≤ r.totalGprsAmountUsd ∧ 0 ≤ r.totalVoiceAmountUsd) := by
  refine ⟨rfl, fun s => rfl, fun q => rfl, ?_, ?_⟩
  · intro hs year mon row hrow
    exact ⟨totalVolumeOfRow_zero hs hrow, singleColVal_zero hs hrow .dur,
      singleColVal_zero hs hrow .gprs, singleColVal_zero hs hrow .voice⟩
  · intro wb hwb r hr
    unfold parse_workbook at hr
    rcases List.mem_flatten.mp hr with ⟨l, hl, hrl⟩
    rcases List.mem_map.mp hl with ⟨sf, hsf, hsfl⟩
    rw [← hsfl] at hrl
    rcases mem_sheetRecords hrl with ⟨row, hrow, hmk⟩
    have hcells := hwb sf hsf row hrow
    rw [hmk]
    exact ⟨totalVolumeOfRow_nonneg sf.2.headers hcells,
      singleColVal_nonneg sf.2.headers hcells .dur,
      singleColVal_nonneg sf.2.headers hcells .gprs,
      singleColVal_nonneg sf.2.headers hcells .voice⟩

theorem numeric_fields_coerced_witness :
    0 ≤ (mkRecord ["Partner Name", "Network ID", "Total Volume(KB)"]
      (safe_year_from_filename "r_2020.xlsx") "Jan"
      [Cell.text "Op", Cell.text "IND01", Cell.num 7]).totalVolumeKb :=
  ((numeric_fields_coerced.2.2.2.2
    ⟨"r_2020.xlsx", [("Jan", ⟨["Partner Name", "Network ID", "Total Volume(KB)"],
      [[Cell.text "Op", Cell.text "IND01", Cell.num 7]]⟩)]⟩
    (by decide)
    (mkRecord ["Partner Name", "Network ID", "Total Volume(KB)"]
      (safe_year_from_filename "r_2020.xlsx") "Jan"
      [Cell.text "Op", Cell.text "IND01", Cell.num 7])
    (by decide))).1
